import Mathlib

/-!
Verification development for the DNS-CPP stub-resolver core.

The definitions below are a shallow embedding of the C++ sources:

* `include/dnscpp/bits.h`   — the `Bits` flag utility class;
* `include/dnscpp/operation.h` — `Operation::cancel`;
* `include/dnscpp/ip.h`     — `Ip::compare` and the relational operators;
* `src/query.cpp`           — `Query::Query`, `Query::edns`, `Query::contains`,
  `Query::matches`;
* `src/resolvconf.cpp`      — the resolv.conf parser.

Machine integers are modelled as `Nat` bit patterns (with explicit masks at
32-bit width where the C code relies on two-complement arithmetic), C strings
as `List Char` (the terminating NUL is the end of the list), fallible
constructors as `Option`/`Except`, and the heap state of an object subject to
`delete this` as an explicit state type.  Pieces of the library that are not
part of the sources (the `Compressor` collaborator, the buffer capacity from
`query.h`, the `ns_samename` libc routine, the default configuration values
from `resolvconf.h`) are modelled from the specification; each such definition
carries a doc comment saying so.
-/

namespace DNS

/-! ### Bits (include/dnscpp/bits.h) -/

/-- Flag constant `BIT_AD = 1` from bits.h. -/
def BIT_AD : Nat := 1

/-- Flag constant `BIT_CD = 2` from bits.h. -/
def BIT_CD : Nat := 2

/-- Flag constant `BIT_DO = 4` from bits.h. -/
def BIT_DO : Nat := 4

/-- The `Bits` utility class: its only state is the private `int _value`,
modelled as the 32-bit pattern of that integer. -/
structure Bits where
  value : Nat

/-- `Bits::add` from bits.h: `_value |= value`. -/
def Bits.add (b : Bits) (v : Nat) : Bits := ⟨b.value ||| v⟩

/-- `Bits::del` from bits.h: `_value &= ~value`; the complement of the flag
constant is taken at the 32-bit width of a C `int`. -/
def Bits.del (b : Bits) (v : Nat) : Bits := ⟨b.value &&& (2 ^ 32 - 1 - v)⟩

/-- Getter `Bits::AD()` from bits.h: `_value & BIT_AD` converted to `bool`. -/
def Bits.AD (b : Bits) : Bool := (b.value &&& BIT_AD) != 0

/-- Getter `Bits::CD()` from bits.h. -/
def Bits.CD (b : Bits) : Bool := (b.value &&& BIT_CD) != 0

/-- Getter `Bits::DO()` from bits.h. -/
def Bits.DO (b : Bits) : Bool := (b.value &&& BIT_DO) != 0

/-- Long-notation getter `Bits::dnssec()` from bits.h: returns `DO()`. -/
def Bits.dnssec (b : Bits) : Bool := b.DO

/-- Setter `Bits::AD(bool)` from bits.h:
`value ? add(BIT_AD) : del(BIT_AD)`. -/
def Bits.setAD (b : Bits) (v : Bool) : Bits :=
  if v then b.add BIT_AD else b.del BIT_AD

/-- Setter `Bits::CD(bool)` from bits.h. -/
def Bits.setCD (b : Bits) (v : Bool) : Bits :=
  if v then b.add BIT_CD else b.del BIT_CD

/-- Setter `Bits::DO(bool)` from bits.h. -/
def Bits.setDO (b : Bits) (v : Bool) : Bits :=
  if v then b.add BIT_DO else b.del BIT_DO

/-- Reading a single-bit mask of a `Nat` as a boolean is exactly `testBit`. -/
theorem and_pow_two_ne_zero (v i : Nat) :
    ((v &&& 2 ^ i) != 0) = v.testBit i := by
  rw [Nat.and_two_pow]
  have hpos : (2 : Nat) ^ i ≠ 0 := pow_ne_zero _ (by omega)
  cases h : v.testBit i <;> simp [hpos]

/-- Specialization of `and_pow_two_ne_zero` to the mask `BIT_AD = 1`. -/
theorem and_one_ne_zero (v : Nat) : ((v &&& 1) != 0) = v.testBit 0 := by
  simpa using and_pow_two_ne_zero v 0

/-- Specialization of `and_pow_two_ne_zero` to the mask `BIT_CD = 2`. -/
theorem and_two_ne_zero (v : Nat) : ((v &&& 2) != 0) = v.testBit 1 := by
  simpa using and_pow_two_ne_zero v 1

/-- Specialization of `and_pow_two_ne_zero` to the mask `BIT_DO = 4`. -/
theorem and_four_ne_zero (v : Nat) : ((v &&& 4) != 0) = v.testBit 2 := by
  have h := and_pow_two_ne_zero v 2
  norm_num at h
  exact h

/-- C10: for every `Bits` value and every boolean, each of the three setters
`AD`, `CD`, `DO` makes its own getter return exactly the written boolean and
leaves the other two getters unchanged. -/
theorem bits_setters_frame (b : Bits) (v : Bool) :
    ((b.setAD v).AD = v ∧ (b.setAD v).CD = b.CD ∧ (b.setAD v).DO = b.DO) ∧
    ((b.setCD v).CD = v ∧ (b.setCD v).AD = b.AD ∧ (b.setCD v).DO = b.DO) ∧
    ((b.setDO v).DO = v ∧ (b.setDO v).AD = b.AD ∧ (b.setDO v).CD = b.CD) := by
  cases v <;>
    refine ⟨⟨?_, ?_, ?_⟩, ⟨?_, ?_, ?_⟩, ⟨?_, ?_, ?_⟩⟩ <;>
    simp only [Bits.setAD, Bits.setCD, Bits.setDO, Bits.add, Bits.del,
      Bits.AD, Bits.CD, Bits.DO, BIT_AD, BIT_CD, BIT_DO,
      if_true, if_false, Bool.false_eq_true] <;>
    simp only [and_one_ne_zero, and_two_ne_zero, and_four_ne_zero,
      Nat.testBit_lor, Nat.testBit_land] <;>
    simp [(by decide : Nat.testBit 1 0 = true), (by decide : Nat.testBit 1 1 = false),
      (by decide : Nat.testBit 1 2 = false), (by decide : Nat.testBit 2 0 = false),
      (by decide : Nat.testBit 2 1 = true), (by decide : Nat.testBit 2 2 = false),
      (by decide : Nat.testBit 4 0 = false), (by decide : Nat.testBit 4 1 = false),
      (by decide : Nat.testBit 4 2 = true), (by decide : Nat.testBit 4294967294 0 = false),
      (by decide : Nat.testBit 4294967294 1 = true), (by decide : Nat.testBit 4294967294 2 = true),
      (by decide : Nat.testBit 4294967293 0 = true), (by decide : Nat.testBit 4294967293 1 = false),
      (by decide : Nat.testBit 4294967293 2 = true), (by decide : Nat.testBit 4294967291 0 = true),
      (by decide : Nat.testBit 4294967291 1 = true), (by decide : Nat.testBit 4294967291 2 = false)]

/-! ### Operation (include/dnscpp/operation.h) -/

/-- Heap state of one `Operation` object.  The class owns no other mutable
state that `cancel()` touches: the body of `Operation::cancel()` in
operation.h is exactly `delete this`. -/
inductive OpState where
  | alive
  | destroyed
deriving DecidableEq

/-- `Operation::cancel()` from operation.h: `delete this`.  Deleting a live
object destroys it; invoking `delete` on an object that was already deleted
is undefined behavior in C++, modelled as `none`. -/
def Operation.cancel : OpState → Option OpState
  | OpState.alive => some OpState.destroyed
  | OpState.destroyed => none

/-- C3 counterexample: cancelling twice is not the same as cancelling once.
The first `cancel()` on a live operation destroys the object; a second
`cancel()` is a `delete` of an already-deleted object and has no defined
result, while the claim says it would succeed with the same effect. -/
theorem cancel_not_idempotent :
    (Operation.cancel OpState.alive).bind Operation.cancel ≠
      Operation.cancel OpState.alive := by
  decide

/-- C3 amended: `cancel()` on a live operation always succeeds and destroys
the object, but it is not idempotent: a second call is a double delete, which
has no defined outcome, so `cancel()` must be invoked at most once per
operation. -/
theorem cancel_once_succeeds :
    Operation.cancel OpState.alive = some OpState.destroyed ∧
    Operation.cancel OpState.destroyed = none := by
  decide

/-! ### Ip (include/dnscpp/ip.h) -/

/-- An `Ip` value: the version tag (4 or 6) together with the significant
bytes of the union member that the version selects (4 bytes of `in_addr`, or
16 bytes of `in6_addr`), in network byte order. -/
structure Ip where
  version : Nat
  bytes : List Nat

/-- Every constructor of the class establishes this: the version is 4 or 6
and the stored address has the matching width. -/
def Ip.wf (a : Ip) : Prop :=
  (a.version = 4 ∧ a.bytes.length = 4) ∨ (a.version = 6 ∧ a.bytes.length = 16)

instance (a : Ip) : Decidable a.wf := by
  unfold Ip.wf
  infer_instance

/-- The libc `memcmp` on byte arrays: the sign of the result is the sign of
the first differing byte pair (bytes compared as unsigned chars), and the
result is zero when all compared bytes agree. -/
def memcmp : List Nat → List Nat → Int
  | a :: as, b :: bs => if a = b then memcmp as bs else (a : Int) - (b : Int)
  | _, _ => 0

/-- `Ip::compare` from ip.h: distinct versions are ordered by
`_version - ip._version`; equal versions compare the raw address bytes with
`memcmp` over the width the version selects. -/
def Ip.compare (a b : Ip) : Int :=
  if a.version ≠ b.version then (a.version : Int) - (b.version : Int)
  else if a.version = 4 then memcmp (a.bytes.take 4) (b.bytes.take 4)
  else if a.version = 6 then memcmp (a.bytes.take 16) (b.bytes.take 16)
  else 0

/-- Operator `==` from ip.h: `compare(ip) == 0`. -/
def Ip.beq (a b : Ip) : Bool := a.compare b = 0

/-- Operator `!=` from ip.h: `compare(ip) != 0`. -/
def Ip.bne (a b : Ip) : Bool := a.compare b ≠ 0

/-- Operator `<` from ip.h: `compare(ip) < 0`. -/
def Ip.blt (a b : Ip) : Bool := a.compare b < 0

/-- Operator `>` from ip.h: `compare(ip) > 0`. -/
def Ip.bgt (a b : Ip) : Bool := a.compare b > 0

/-- Operator `<=` from ip.h: `compare(ip) <= 0`. -/
def Ip.ble (a b : Ip) : Bool := a.compare b ≤ 0

/-- Operator `>=` from ip.h: `compare(ip) >= 0`. -/
def Ip.bge (a b : Ip) : Bool := a.compare b ≥ 0

/-- Strict lexicographic order on byte strings, as the specification words
it: some common (possibly empty) front agrees and the first difference is
smaller on the left.  Stated recursively. -/
def bytesLt : List Nat → List Nat → Prop
  | a :: as, b :: bs => a < b ∨ (a = b ∧ bytesLt as bs)
  | _, _ => False

/-- Boolean computation of `bytesLt`. -/
def bytesLtB : List Nat → List Nat → Bool
  | a :: as, b :: bs => decide (a < b) || (decide (a = b) && bytesLtB as bs)
  | _, _ => false

/-- The boolean computation agrees with the order. -/
theorem bytesLt_iff_bytesLtB :
    ∀ as bs : List Nat, bytesLt as bs ↔ bytesLtB as bs = true := by
  intro as
  induction as with
  | nil => intro bs; cases bs <;> simp [bytesLt, bytesLtB]
  | cons a as ih =>
    intro bs
    cases bs with
    | nil => simp [bytesLt, bytesLtB]
    | cons b bs => simp [bytesLt, bytesLtB, ih bs]

instance (as bs : List Nat) : Decidable (bytesLt as bs) :=
  decidable_of_iff _ (bytesLt_iff_bytesLtB as bs).symm

/-- The order the specification states for `Ip`: first by version (IPv4
before IPv6), then lexicographically by the raw network-order bytes. -/
def ipSpecLt (a b : Ip) : Prop :=
  a.version < b.version ∨ (a.version = b.version ∧ bytesLt a.bytes b.bytes)

/-- On equal-length byte strings a negative `memcmp` is exactly the strict
lexicographic order. -/
theorem memcmp_neg_iff :
    ∀ as bs : List Nat, as.length = bs.length → (memcmp as bs < 0 ↔ bytesLt as bs) := by
  intro as
  induction as with
  | nil => intro bs h; cases bs <;> simp [memcmp, bytesLt] at h ⊢
  | cons a as ih =>
    intro bs h
    cases bs with
    | nil => simp at h
    | cons b bs =>
      simp only [List.length_cons, Nat.succ.injEq] at h
      simp only [memcmp, bytesLt]
      rcases eq_or_ne a b with rfl | hab
      · simpa using ih bs h
      · simp only [if_neg hab]
        constructor
        · intro hlt
          exact Or.inl (by omega)
        · rintro (hlt | ⟨rfl, _⟩)
          · omega
          · exact absurd rfl hab

/-- On equal-length byte strings `memcmp` vanishes exactly on equal
strings. -/
theorem memcmp_eq_zero_iff :
    ∀ as bs : List Nat, as.length = bs.length → (memcmp as bs = 0 ↔ as = bs) := by
  intro as
  induction as with
  | nil => intro bs h; cases bs <;> simp [memcmp] at h ⊢
  | cons a as ih =>
    intro bs h
    cases bs with
    | nil => simp at h
    | cons b bs =>
      simp only [List.length_cons, Nat.succ.injEq] at h
      simp only [memcmp]
      rcases eq_or_ne a b with rfl | hab
      · simpa using ih bs h
      · simp [if_neg hab, hab]
        omega

/-- C9: on well-formed `Ip` values, `Ip::compare` realizes the total order
keyed first on the version (every IPv4 address below every IPv6 address) and
then on the lexicographic order of the raw network-order bytes: a negative
result is exactly the (version, bytes) lexicographic order, a zero result is
exactly componentwise equality, and the six relational operators answer
according to the sign of `compare`. -/
theorem ip_compare_spec (a b : Ip) (ha : a.wf) (hb : b.wf) :
    (a.compare b < 0 ↔ ipSpecLt a b) ∧
    (a.compare b = 0 ↔ (a.version = b.version ∧ a.bytes = b.bytes)) ∧
    (a.version = 4 → b.version = 6 → a.compare b < 0) ∧
    (a.beq b = true ↔ a.compare b = 0) ∧
    (a.bne b = true ↔ a.compare b ≠ 0) ∧
    (a.blt b = true ↔ a.compare b < 0) ∧
    (a.bgt b = true ↔ 0 < a.compare b) ∧
    (a.ble b = true ↔ a.compare b ≤ 0) ∧
    (a.bge b = true ↔ 0 ≤ a.compare b) := by
  refine ⟨?_, ?_, ?_, by simp [Ip.beq], by simp [Ip.bne], by simp [Ip.blt],
    by simp [Ip.bgt], by simp [Ip.ble], by simp [Ip.bge]⟩
  all_goals
    rcases ha with ⟨ha4, hal⟩ | ⟨ha6, hal⟩ <;> rcases hb with ⟨hb4, hbl⟩ | ⟨hb6, hbl⟩
  -- the < 0 characterization, four version cases
  · have hta : a.bytes.take 4 = a.bytes := List.take_of_length_le (le_of_eq hal)
    have htb : b.bytes.take 4 = b.bytes := List.take_of_length_le (le_of_eq hbl)
    simp [Ip.compare, ipSpecLt, ha4, hb4, hta, htb,
      memcmp_neg_iff a.bytes b.bytes (by omega)]
  · simp [Ip.compare, ipSpecLt, ha4, hb6]
  · simp [Ip.compare, ipSpecLt, ha6, hb4]
  · have hta : a.bytes.take 16 = a.bytes := List.take_of_length_le (le_of_eq hal)
    have htb : b.bytes.take 16 = b.bytes := List.take_of_length_le (le_of_eq hbl)
    simp [Ip.compare, ipSpecLt, ha6, hb6, hta, htb,
      memcmp_neg_iff a.bytes b.bytes (by omega)]
  -- the = 0 characterization, four version cases
  · have hta : a.bytes.take 4 = a.bytes := List.take_of_length_le (le_of_eq hal)
    have htb : b.bytes.take 4 = b.bytes := List.take_of_length_le (le_of_eq hbl)
    simp [Ip.compare, ha4, hb4, hta, htb, memcmp_eq_zero_iff a.bytes b.bytes (by omega)]
  · simp [Ip.compare, ha4, hb6]
  · simp [Ip.compare, ha6, hb4]
  · have hta : a.bytes.take 16 = a.bytes := List.take_of_length_le (le_of_eq hal)
    have htb : b.bytes.take 16 = b.bytes := List.take_of_length_le (le_of_eq hbl)
    simp [Ip.compare, ha6, hb6, hta, htb, memcmp_eq_zero_iff a.bytes b.bytes (by omega)]
  -- IPv4 below IPv6, four version cases
  · intro h4 h6; omega
  · intro h4 h6; simp [Ip.compare, ha4, hb6]
  · intro h4 h6; omega
  · intro h4 h6; omega

/-- C9 witness: the characterization applied to the concrete addresses
`1.2.3.4` and `::1`. -/
theorem ip_compare_spec_witness :
    (Ip.mk 4 [1, 2, 3, 4]).wf ∧ (Ip.mk 6 [0, 0, 0, 0, 0, 0, 0, 0, 0, 0, 0, 0, 0, 0, 0, 1]).wf ∧
    ((Ip.mk 4 [1, 2, 3, 4]).compare (Ip.mk 6 [0, 0, 0, 0, 0, 0, 0, 0, 0, 0, 0, 0, 0, 0, 0, 1]) < 0 ↔
      ipSpecLt (Ip.mk 4 [1, 2, 3, 4]) (Ip.mk 6 [0, 0, 0, 0, 0, 0, 0, 0, 0, 0, 0, 0, 0, 0, 0, 1])) :=
  ⟨by decide, by decide,
    (ip_compare_spec (Ip.mk 4 [1, 2, 3, 4])
      (Ip.mk 6 [0, 0, 0, 0, 0, 0, 0, 0, 0, 0, 0, 0, 0, 0, 0, 1])
      (by decide) (by decide)).1⟩

/-! ### Query matching (src/query.cpp: Query::contains, Query::matches) -/

/-- Opcode `ns_o_query` from arpa/nameser.h (the `QUERY` constant). -/
def opQuery : Nat := 0

/-- Opcode `ns_o_notify` from arpa/nameser.h (the `NS_NOTIFY_OP` constant). -/
def opNotify : Nat := 4

/-- Opcode `ns_o_update` from arpa/nameser.h. -/
def opUpdate : Nat := 5

/-- ASCII case folding of one character, as DNS name comparison performs it
(RFC 1035 §2.3.3). -/
def asciiLower (c : Char) : Char :=
  if 'A' ≤ c ∧ c ≤ 'Z' then Char.ofNat (c.toNat + 32) else c

/-- Modelled from the spec: the libc routine `ns_samename` used by
`Query::contains` is not part of the repository; per the specification the
comparison is case-insensitive name equality (RFC 1035 §2.3.3), so two dotted
names are the same exactly when they agree after ASCII case folding. -/
def sameName (a b : List Char) : Bool := a.map asciiLower == b.map asciiLower

/-- One entry of a question section: owner name, record type, record class.
Modelled from the spec: the `Question` accessor class (question.h) is not in
the sources; the specification describes a question as this triple. -/
structure Question where
  name : List Char
  qtype : Nat
  dnsclass : Nat

/-- A constructed query as the matching logic reads it: the transaction id
(`Query::id()`), the opcode (`Query::opcode()`), and the question section.
Modelled from the spec where the wire accessors are missing from the sources:
`Query::questions()` returns the header `qdcount`, which for the queries the
constructor emits equals the number of encoded questions, and the
`Decompressed` name extraction (decompressed.h) yields the stored question
triples. -/
structure QueryM where
  id : Nat
  opcode : Nat
  questions : List Question

/-- A received response as `Query::matches` reads it (`response.id()`,
`response.opcode()`, `response.questions()` and the `Question(response, i)`
accessors; the accessor classes are not in the sources and are modelled from
the spec as direct access to the parsed question triples). -/
structure ResponseM where
  id : Nat
  opcode : Nat
  questions : List Question

/-- `Query::contains` from query.cpp: walk the question section of the query
and report whether some entry has the same type, the same class, and the same
name up to case (`ns_samename(name, record.name()) > 0`). -/
def QueryM.contains (q : QueryM) (r : Question) : Bool :=
  q.questions.any fun x =>
    x.qtype == r.qtype && (x.dnsclass == r.dnsclass && sameName x.name r.name)

/-- `Query::matches` from query.cpp: reject on an id mismatch; accept
dynamic-update pairs outright; otherwise require equally many questions and
that every question of the response occurs in the query. -/
def QueryM.matches (q : QueryM) (r : ResponseM) : Bool :=
  if r.id != q.id then false
  else if r.opcode == opUpdate && q.opcode == opUpdate then true
  else if r.questions.length != q.questions.length then false
  else r.questions.all fun x => q.contains x

/-- C1: `Query::matches(response)` answers true exactly when the response id
equals the query id and either both opcodes are UPDATE, or the response has
as many questions as the query and every question of the response occurs
(name compared case-insensitively, type and class exactly) among the
questions of the query; every pair failing one of the conditions is
rejected. -/
theorem query_matches_iff (q : QueryM) (r : ResponseM) :
    q.matches r = true ↔
      (r.id = q.id ∧
        ((r.opcode = opUpdate ∧ q.opcode = opUpdate) ∨
          (r.questions.length = q.questions.length ∧
            ∀ x ∈ r.questions, ∃ y ∈ q.questions,
              y.qtype = x.qtype ∧ y.dnsclass = x.dnsclass ∧ sameName y.name x.name = true))) := by
  unfold QueryM.matches QueryM.contains
  split
  next hbne =>
    have hid : r.id ≠ q.id := by simpa using hbne
    simp [hid]
  next hbne =>
    have hid : r.id = q.id := by simpa using hbne
    split
    next hup =>
      have h : r.opcode = opUpdate ∧ q.opcode = opUpdate := by
        simpa [Bool.and_eq_true] using hup
      simp [hid, h]
    next hup =>
      have h : ¬(r.opcode = opUpdate ∧ q.opcode = opUpdate) := by
        simpa [Bool.and_eq_true] using hup
      split
      next hlen =>
        have hne : r.questions.length ≠ q.questions.length := by simpa using hlen
        simp [hid, h, hne]
      next hlen =>
        have hl : r.questions.length = q.questions.length := by simpa using hlen
        simp [hid, h, hl, List.all_eq_true, List.any_eq_true, and_assoc]

/-- Modelled from the spec: a response synthesized from the question section
of a query echoes that query (its opcode and its questions) and carries
whatever transaction id the sender chose. -/
def synthResponse (src : QueryM) (rid : Nat) : ResponseM :=
  ⟨rid, src.opcode, src.questions⟩

/-- C2: if two queries hold single questions that differ (distinct names
after case folding, or distinct types), then the first query rejects any
response synthesized from the question section of the second, even when the
response carries the id of the first query.  The hypothesis on the opcode is
what `Query::Query` establishes: only `QUERY` and `NS_NOTIFY_OP` queries are
ever constructed, so a constructed query is never an UPDATE. -/
theorem spoofed_response_rejected (q1 q2 : QueryM) (t1 t2 : Question)
    (hop : q1.opcode = opQuery ∨ q1.opcode = opNotify)
    (hq1 : q1.questions = [t1]) (hq2 : q2.questions = [t2])
    (hdiff : t1.name.map asciiLower ≠ t2.name.map asciiLower ∨ t1.qtype ≠ t2.qtype) :
    q1.matches (synthResponse q2 q1.id) = false := by
  unfold QueryM.matches QueryM.contains synthResponse
  have hnup : ¬(q2.opcode = opUpdate ∧ q1.opcode = opUpdate) := by
    rintro ⟨-, h1⟩
    rcases hop with h | h <;> simp [h, opQuery, opNotify, opUpdate] at h1
  simp only [hq1, hq2]
  rcases hdiff with hname | htype
  · simp [hnup, Bool.and_eq_true, sameName, hname]
  · simp [hnup, Bool.and_eq_true, htype, fun h : t1.qtype = t2.qtype => htype h]

/-- C2 witness: two queries for the names `example.com` and `example.org`
under the same transaction id 1234. -/
theorem spoofed_response_rejected_witness :
    ((QueryM.mk 1234 0 [Question.mk "example.com".data 1 1]).opcode = opQuery ∨
      (QueryM.mk 1234 0 [Question.mk "example.com".data 1 1]).opcode = opNotify) ∧
    ("example.com".data.map asciiLower ≠ "example.org".data.map asciiLower ∨
      (1 : Nat) ≠ 1) ∧
    (QueryM.mk 1234 0 [Question.mk "example.com".data 1 1]).matches
      (synthResponse (QueryM.mk 1234 0 [Question.mk "example.org".data 1 1])
        (QueryM.mk 1234 0 [Question.mk "example.com".data 1 1]).id) = false :=
  ⟨Or.inl rfl, Or.inl (by decide),
    spoofed_response_rejected
      (QueryM.mk 1234 0 [Question.mk "example.com".data 1 1])
      (QueryM.mk 1234 0 [Question.mk "example.org".data 1 1])
      (Question.mk "example.com".data 1 1) (Question.mk "example.org".data 1 1)
      (Or.inl rfl) rfl rfl (Or.inl (by decide))⟩

/-! ### Query construction (src/query.cpp: Query::Query, Query::edns) -/

/-- Header size `HFIXEDSZ` from arpa/nameser.h. -/
def hfixedsz : Nat := 12

/-- Record class `ns_c_in` from arpa/nameser.h. -/
def nsClassIn : Nat := 1

/-- Record type `T_NULL` from arpa/nameser.h. -/
def tNull : Nat := 10

/-- Record type `TYPE_OPT` (the EDNS pseudo-record type, RFC 6891). -/
def typeOpt : Nat := 41

/-- The `NS_OPT_DNSSEC_OK` flag word (the DO bit, 0x8000). -/
def dnssecOk : Nat := 32768

/-- Modelled from the spec: the advertised EDNS UDP packet size constant
`EDNSPacketSize` lives in query.h, which is not in the sources; the
specification names 4096 as the typical advertised size. -/
def ednsPacketSize : Nat := 4096

/-- Modelled from the spec: the capacity of the fixed query buffer `_buffer`
is declared in query.h, which is not in the sources; the specification bounds
an outbound UDP query buffer by 512 bytes. -/
def queryCapacity : Nat := 512

/-- Modelled from the spec: the copy of bits.h in the sources declares no
`RD` accessor although query.cpp reads `bits.RD()`; the specification lists
`RD` (recursion desired) among the flags, carried as the next single-bit
constant after `BIT_DO`. -/
def BIT_RD : Nat := 8

/-- Getter `Bits::RD()` (see `BIT_RD`). -/
def Bits.RD (b : Bits) : Bool := (b.value &&& BIT_RD) != 0

/-- Big-endian 16-bit write, as `put16`/`htons` store a short. -/
def put16 (v : Nat) : List Nat := [v / 256 % 256, v % 256]

/-- Big-endian 32-bit write, as `put32` stores a long. -/
def put32 (v : Nat) : List Nat :=
  [v / 16777216 % 256, v / 65536 % 256, v / 256 % 256, v % 256]

/-- Modelled from the spec: the `Compressor` collaborator (compressor.h) is
not in the sources.  Per the specification it turns a dotted name into the
RFC 1035 label sequence — length-prefixed labels of at most 63 bytes,
terminated by a zero byte, at most 255 bytes in total — and reports an error
otherwise. -/
def encodeName (name : List Char) : Option (List Nat) :=
  let labels := name.splitOn '.'
  if labels.any fun l => l.length = 0 || decide (l.length > 63) then none
  else
    let bytes := labels.foldr (fun l acc => (l.length :: l.map Char.toNat) ++ acc) [0]
    if bytes.length > 255 then none else some bytes

/-- Modelled from the spec: `Compressor::add(name, end, remaining)` writes
the encoded name into the buffer tail of the given size and returns the
number of bytes consumed, or -1 (here `none`) on error. -/
def compressorAdd (name : List Char) (remaining : Nat) : Option (List Nat) :=
  match encodeName name with
  | none => none
  | some bs => if bs.length > remaining then none else some bs

/-- The state of a query buffer under construction: the header fields the
constructor stores (id, opcode, rd/ad/cd flag bits, rcode, the two section
counters) and the bytes following the 12-byte header. -/
structure BuiltQuery where
  id : Nat
  opcode : Nat
  rd : Bool
  ad : Bool
  cd : Bool
  rcode : Nat
  qdcount : Nat
  arcount : Nat
  body : List Nat
deriving DecidableEq

/-- `Query::size()`: header plus everything appended after it. -/
def BuiltQuery.size (q : BuiltQuery) : Nat := hfixedsz + q.body.length

/-- `Query::remaining()`: free room left in the fixed buffer. -/
def BuiltQuery.remaining (q : BuiltQuery) : Nat := queryCapacity - q.size

/-- `Query::edns` from query.cpp: if fewer than 11 bytes remain the helper
reports failure and leaves the buffer alone; otherwise it appends the OPT
pseudo-record — empty owner name, type OPT, class carrying the advertised
UDP size, extended rcode 0, version 0, flag word carrying the DO bit, empty
option list — and increments `arcount`. -/
def BuiltQuery.edns (q : BuiltQuery) (dnssec : Bool) : Bool × BuiltQuery :=
  if q.remaining < 11 then (false, q)
  else
    (true, { q with
      body := q.body ++ 0 ::
        (put16 typeOpt ++ put16 ednsPacketSize ++ [0, 0] ++
          put16 (if dnssec then dnssecOk else 0) ++ put16 0),
      arcount := q.arcount + 1 })

/-- The 11 bytes of the OPT pseudo-record that `Query::edns` appends. -/
def optRecord (dnssec : Bool) : List Nat :=
  0 :: (put16 typeOpt ++ put16 ednsPacketSize ++ [0, 0] ++
    put16 (if dnssec then dnssecOk else 0) ++ put16 0)

/-- The query state after the question section of `Query::Query`: stored
header fields, one question (compressed name, 16-bit type, class IN),
`qdcount` one, no additional records yet.  The transaction id is a
parameter: the sources draw it from the `IdGenerator` collaborator
(idgenerator.h, not in src/). -/
def preQuery (op : Nat) (bits : Bits) (qtype : Int) (namebytes : List Nat)
    (qid : Nat) : BuiltQuery :=
  { id := qid, opcode := op, rd := bits.RD, ad := bits.AD, cd := bits.CD,
    rcode := 0, qdcount := 1, arcount := 0,
    body := namebytes ++ put16 qtype.toNat ++ put16 nsClassIn }

/-- The NOTIFY extra section of `Query::Query`: the compressed data name
followed by a NULL record (type `T_NULL`, class IN, ttl 0, empty rdata), with
`arcount` set to one. -/
def notifyExtend (q : BuiltQuery) (db : List Nat) : BuiltQuery :=
  { q with
    body := q.body ++ db ++ put16 tNull ++ put16 nsClassIn ++ put32 0 ++ put16 0,
    arcount := 1 }

/-- `Query::Query` from query.cpp up to (not including) the final
`edns(bits.dnssec())` call: reject a type outside 0..65535, reject an opcode
other than `NS_NOTIFY_OP` and `QUERY`, compress the name into the remaining
room and build the question section, and for a NOTIFY with extra data
compress that name into the then-remaining room and append the NULL
record. -/
def mkQueryCore (op : Nat) (dname : List Char) (qtype : Int) (bits : Bits)
    (data : Option (List Char)) (qid : Nat) : Option BuiltQuery :=
  if qtype < 0 ∨ qtype > 65535 then none
  else if ¬(op = opNotify ∨ op = opQuery) then none
  else
    match compressorAdd dname (queryCapacity - hfixedsz) with
    | none => none
    | some namebytes =>
      if op = opQuery ∨ data = none then some (preQuery op bits qtype namebytes qid)
      else
        match data with
        | none => some (preQuery op bits qtype namebytes qid)
        | some d =>
          match compressorAdd d (preQuery op bits qtype namebytes qid).remaining with
          | none => none
          | some db => some (notifyExtend (preQuery op bits qtype namebytes qid) db)

/-- `Query::Query` from query.cpp: the construction above followed by
`edns(bits.dnssec())`, whose boolean result the constructor discards. -/
def mkQuery (op : Nat) (dname : List Char) (qtype : Int) (bits : Bits)
    (data : Option (List Char)) (qid : Nat) : Option BuiltQuery :=
  (mkQueryCore op dname qtype bits data qid).map fun q => (q.edns bits.dnssec).2

/-- A NOTIFY payload name of four 59-byte labels (encoded size 241). -/
def nameFourLabels59 : List Char :=
  List.replicate 59 'a' ++ '.' ::
    (List.replicate 59 'a' ++ '.' :: (List.replicate 59 'a' ++ '.' :: List.replicate 59 'a'))

/-- A NOTIFY payload name of four 58-byte labels (encoded size 237). -/
def nameFourLabels58 : List Char :=
  List.replicate 58 'b' ++ '.' ::
    (List.replicate 58 'b' ++ '.' :: (List.replicate 58 'b' ++ '.' :: List.replicate 58 'b'))

set_option maxRecDepth 100000 in
/-- C4 counterexample: a NOTIFY query whose question and extra data leave
only 4 bytes of room constructs successfully (arcount 1, body of 496 bytes)
although appending the 11-byte EDNS-OPT pseudo-record would exceed the
buffer capacity — `Query::edns` reports failure and the constructor discards
that boolean, so construction does not fail as the claim states. -/
theorem query_built_despite_edns_overflow :
    ((mkQuery opNotify nameFourLabels59 1 ⟨0⟩ (some nameFourLabels59) 7).map
      fun (q : BuiltQuery) => (q.arcount, q.body.length, decide (q.remaining < 11))) =
      some (1, 496, true) := by
  rfl

/-- C4 amended: construction fails exactly when the record type is outside
0..65535, the opcode is neither NOTIFY nor QUERY, the question name fails
compression (which covers a name that does not fit the remaining buffer), or
the NOTIFY extra-data name fails compression; the final EDNS-OPT step never
fails construction — when the pseudo-record does not fit, the query is
produced without it. -/
theorem query_construction_failure_iff (op : Nat) (dname : List Char) (qtype : Int)
    (bits : Bits) (data : Option (List Char)) (qid : Nat) :
    (mkQuery op dname qtype bits data qid).isSome =
      (mkQueryCore op dname qtype bits data qid).isSome ∧
    (mkQueryCore op dname qtype bits data qid = none ↔
      ((qtype < 0 ∨ 65535 < qtype) ∨ ¬(op = opNotify ∨ op = opQuery) ∨
        compressorAdd dname (queryCapacity - hfixedsz) = none ∨
        (∃ nb, compressorAdd dname (queryCapacity - hfixedsz) = some nb ∧
          ¬(op = opQuery ∨ data = none) ∧
          ∃ d, data = some d ∧
            compressorAdd d (preQuery op bits qtype nb qid).remaining = none))) := by
  constructor
  · unfold mkQuery
    cases mkQueryCore op dname qtype bits data qid <;> simp
  · unfold mkQueryCore
    split
    next h => simp [h]
    next h =>
      split
      next h2 => simp [h, h2]
      next h2 =>
        split
        next hc => simp [h, h2, hc]
        next nb hc =>
          split
          next h3 => simp [h, h2, hc, h3]
          next h3 =>
            split
            next => exact absurd (Or.inr rfl) h3
            next d =>
              have hop : ¬op = opQuery := fun hq => h3 (Or.inl hq)
              have hn : op = opNotify := by
                rcases not_not.mp h2 with hh | hh
                · exact hh
                · exact absurd hh hop
              subst hn
              split
              next hd => simp [h, h3, hc, hd, (by decide : ¬opNotify = opQuery)]
              next db hd => simp [h, h3, hc, hd, (by decide : ¬opNotify = opQuery)]

set_option maxRecDepth 100000 in
/-- C5 counterexample: a successfully constructed NOTIFY query in which the
OPT record did not fit: the query constructs with qdcount 1 and arcount 1,
yet its final bytes are not the EDNS-OPT pseudo-record, so the OPT record is
not the last additional record of every successfully constructed query. -/
theorem query_opt_not_last_on_overflow :
    ((mkQuery opNotify nameFourLabels59 1 ⟨0⟩ (some nameFourLabels58) 7).map
      fun (q : BuiltQuery) =>
        (q.qdcount, q.arcount,
          decide (q.body.drop (q.body.length - 11) = optRecord false))) =
      some (1, 1, false) := by
  rfl

/-- C5 amended: whenever the constructor succeeds and at least 11 bytes
remain for the EDNS step, the finished query consists of the pre-EDNS state
with the OPT pseudo-record — empty owner name, type OPT, class carrying the
advertised UDP size, extended rcode 0, version 0, DO flag mirroring the
request flags, empty options — appended as the final additional record,
qdcount is the one encoded question, and arcount counts exactly the encoded
additional records (the NOTIFY extra record if present, plus the OPT
record). -/
theorem query_edns_invariant (op : Nat) (dname : List Char) (qtype : Int)
    (bits : Bits) (data : Option (List Char)) (qid : Nat) (q0 : BuiltQuery)
    (h : mkQueryCore op dname qtype bits data qid = some q0)
    (hfit : 11 ≤ q0.remaining) :
    mkQuery op dname qtype bits data qid =
      some { q0 with body := q0.body ++ optRecord bits.DO, arcount := q0.arcount + 1 } ∧
    q0.qdcount = 1 ∧
    q0.arcount = (if ¬(op = opQuery ∨ data = none) then 1 else 0) ∧
    optRecord bits.DO =
      0 :: (put16 typeOpt ++ put16 ednsPacketSize ++ [0, 0] ++
        put16 (if bits.DO then dnssecOk else 0) ++ put16 0) := by
  refine ⟨?_, ?_, ?_, rfl⟩
  · unfold mkQuery
    rw [h]
    unfold BuiltQuery.edns
    simp only [Option.map]
    rw [if_neg (by omega)]
    simp [Bits.dnssec, optRecord]
  all_goals
    unfold mkQueryCore at h
    split at h
    next => exact absurd h (by simp)
    next =>
      split at h
      next => exact absurd h (by simp)
      next =>
        split at h
        next => exact absurd h (by simp)
        next nb hc =>
          split at h
          next h3 =>
            cases h
            simp [preQuery, h3]
          next h3 =>
            split at h
            next => exact absurd (Or.inr rfl) h3
            next d =>
              split at h
              next => exact absurd h (by simp)
              next db hd =>
                cases h
                have hop : ¬op = opQuery := fun hq => h3 (Or.inl hq)
                simp [notifyExtend, preQuery, h3, hop]

/-- C5 witness: the invariant applied to a plain A query for `example.com`;
the pre-EDNS state is listed explicitly and the finished query carries the
OPT record as its trailing bytes. -/
theorem query_edns_invariant_witness :
    (mkQueryCore opQuery "example.com".data 1 ⟨0⟩ none 7 =
      some (BuiltQuery.mk 7 0 false false false 0 1 0
        [7, 101, 120, 97, 109, 112, 108, 101, 3, 99, 111, 109, 0, 0, 1, 0, 1]) ∧
      11 ≤ (BuiltQuery.mk 7 0 false false false 0 1 0
        [7, 101, 120, 97, 109, 112, 108, 101, 3, 99, 111, 109, 0, 0, 1, 0, 1]).remaining) ∧
    mkQuery opQuery "example.com".data 1 ⟨0⟩ none 7 =
      some { BuiltQuery.mk 7 0 false false false 0 1 0
          [7, 101, 120, 97, 109, 112, 108, 101, 3, 99, 111, 109, 0, 0, 1, 0, 1] with
        body := [7, 101, 120, 97, 109, 112, 108, 101, 3, 99, 111, 109, 0, 0, 1, 0, 1] ++
          optRecord (Bits.mk 0).DO,
        arcount := 0 + 1 } :=
  ⟨⟨by rfl, by decide⟩,
    (query_edns_invariant opQuery "example.com".data 1 ⟨0⟩ none 7
      (BuiltQuery.mk 7 0 false false false 0 1 0
        [7, 101, 120, 97, 109, 112, 108, 101, 3, 99, 111, 109, 0, 0, 1, 0, 1])
      (by rfl) (by decide)).1⟩

/-! ### resolv.conf parser (src/resolvconf.cpp) -/

/-- The C `isspace` predicate: space, tab, newline, vertical tab, form feed,
carriage return. -/
def cIsSpace (c : Char) : Bool :=
  c = ' ' || (c = '\t' || (c = '\n' || (c = Char.ofNat 11 || (c = Char.ofNat 12 || c = '\r'))))

/-- The `linesize` helper of resolvconf.cpp together with `line.resize(...)`:
drop the trailing whitespace of a line. -/
def trimTrailing (line : List Char) : List Char :=
  (line.reverse.dropWhile cIsSpace).reverse

/-- The `whitesize` helper of resolvconf.cpp: the number of leading
whitespace characters. -/
def whitesize (line : List Char) : Nat :=
  (line.takeWhile cIsSpace).length

/-- Case folding of one byte as `strncasecmp` applies it. -/
def ccaseEq (a b : Char) : Bool := asciiLower a == asciiLower b

/-- `strncasecmp(s1, s2, n) == 0` over NUL-terminated C strings modelled as
char lists (the end of the list is the terminator): the comparison stops at
`n` characters, at the first difference, or at the terminator. -/
def cstrncaseeq : List Char → List Char → Nat → Bool
  | _, _, 0 => true
  | [], [], _ + 1 => true
  | [], _ :: _, _ + 1 => false
  | _ :: _, [], _ + 1 => false
  | a :: as, b :: bs, n + 1 => ccaseEq a b && cstrncaseeq as bs n

/-- `strncmp(s1, s2, n) == 0` over NUL-terminated C strings modelled as char
lists; same stopping rules as `cstrncaseeq`, exact comparison. -/
def cstrneq : List Char → List Char → Nat → Bool
  | _, _, 0 => true
  | [], [], _ + 1 => true
  | [], _ :: _, _ + 1 => false
  | _ :: _, [], _ + 1 => false
  | a :: as, b :: bs, n + 1 => a == b && cstrneq as bs n

/-- The `check` helper of resolvconf.cpp: a line opens with the required
keyword (compared case-insensitively over the length of the keyword) and at
least one whitespace character separates it from the value; returns the
number of bytes to strip, or zero on no match. -/
def check (line : List Char) (kw : String) : Nat :=
  if cstrncaseeq line kw.data kw.length then
    if whitesize (line.drop kw.length) = 0 then 0
    else kw.length + whitesize (line.drop kw.length)
  else 0

/-- The digit-consuming loop of the libc `atoi`. -/
def atoiDigits : List Char → Nat → Nat
  | c :: cs, acc => if c.isDigit then atoiDigits cs (acc * 10 + (c.toNat - 48)) else acc
  | [], acc => acc

/-- The libc `atoi`: skip leading whitespace, read an optional sign, consume
the leading digits (zero when there are none; overflow is not modelled). -/
def atoi (s : List Char) : Int :=
  match s.dropWhile cIsSpace with
  | '-' :: rest => -(atoiDigits rest 0 : Int)
  | '+' :: rest => (atoiDigits rest 0 : Int)
  | t => (atoiDigits t 0 : Int)

/-- The configuration the parser builds: the private members of `ResolvConf`
that the modelled handlers mutate.  Nameserver addresses are recorded as
their textual value: the `Ip` string constructor lives in ip.cpp, which is
not in the sources (modelled from the spec, which treats a nameserver line
as producing an address). -/
structure ResolvConfState where
  nameservers : List (List Char)
  searchpaths : List (List Char)
  rotate : Bool
  timeout : Int
  attempts : Int
  ndots : Int
deriving DecidableEq

/-- Modelled from the spec: the defaults of the members declared in
resolvconf.h (not in the sources) — rotate false, timeout 5, attempts 2,
ndots 1, empty lists. -/
def initialResolvConf : ResolvConfState :=
  { nameservers := [], searchpaths := [], rotate := false,
    timeout := 5, attempts := 2, ndots := 1 }

/-- `ResolvConf::option` from resolvconf.cpp.  `rest` is the NUL-terminated
C string from the start of the token to the end of the line (the `option`
pointer), `size` the size of the token; the source compares with `strncmp`
against the full remaining string and ignores `size` beyond the emptiness
check.  Note the `rotate` comparison spans 7 bytes — the six letters and the
terminator of the literal. -/
def ResolvConfState.option (st : ResolvConfState) (rest : List Char) (size : Nat) :
    ResolvConfState :=
  if size = 0 then st
  else if cstrneq rest "rotate".data 7 then { st with rotate := true }
  else if cstrneq rest "timeout:".data 8 then
    { st with timeout := min 30 (atoi (rest.drop 8)) }
  else if cstrneq rest "attempts:".data 9 then
    { st with attempts := min 5 (atoi (rest.drop 9)) }
  else if cstrneq rest "ndots:".data 6 then
    { st with ndots := min 15 (atoi (rest.drop 6)) }
  else st

/-- The loop of `ResolvConf::options` from resolvconf.cpp: tokens are cut at
each single space character (`strchr(start, ' ')`); each token start is
handed to `option` together with the token size; the fuel argument bounds
the iteration count and never runs out from the entry point below. -/
def optionsLoopF : Nat → ResolvConfState → List Char → ResolvConfState
  | 0, st, _ => st
  | fuel + 1, st, rest =>
    if (rest.takeWhile fun c => c ≠ ' ').length = rest.length then
      st.option rest (rest.takeWhile fun c => c ≠ ' ').length
    else
      optionsLoopF fuel (st.option rest (rest.takeWhile fun c => c ≠ ' ').length)
        (rest.drop ((rest.takeWhile fun c => c ≠ ' ').length + 1))

/-- `ResolvConf::options` from resolvconf.cpp. -/
def ResolvConfState.options (st : ResolvConfState) (line : List Char) : ResolvConfState :=
  optionsLoopF (line.length + 1) st line

/-- The loop of `ResolvConf::search` from resolvconf.cpp: cut the value at
whitespace runs (`findwhite` and `whitesize`); when no whitespace remains the
rest is the final path.  Fuel as in `optionsLoopF`. -/
def searchLoopF : Nat → List Char → List (List Char)
  | 0, _ => []
  | _ + 1, [] => []
  | fuel + 1, cs =>
    if (cs.takeWhile fun c => ¬ cIsSpace c).length = cs.length then [cs]
    else
      (cs.takeWhile fun c => ¬ cIsSpace c) ::
        searchLoopF fuel
          ((cs.drop (cs.takeWhile fun c => ¬ cIsSpace c).length).dropWhile cIsSpace)

/-- `ResolvConf::search` from resolvconf.cpp: forget earlier search paths,
then collect the whitespace-separated parts of the value. -/
def ResolvConfState.search (st : ResolvConfState) (line : List Char) : ResolvConfState :=
  { st with searchpaths := searchLoopF (line.length + 1) line }

/-- `ResolvConf::nameserver` from resolvconf.cpp:
`_nameservers.emplace_back(line)` (see `ResolvConfState` on the Ip
modelling). -/
def ResolvConfState.nameserver (st : ResolvConfState) (line : List Char) : ResolvConfState :=
  { st with nameservers := st.nameservers ++ [line] }

/-- `ResolvConf::parse` from resolvconf.cpp over one already-trimmed line:
skip empty and commented lines, dispatch on the keyword in source order
(nameserver, options, domain, search), raise on anything else.  The `domain`
handler of the source unconditionally raises `not implemented`. -/
def parseTrimmedLine (st : ResolvConfState) (line : List Char) :
    Except String ResolvConfState :=
  match line with
  | [] => Except.ok st
  | c :: _ =>
    if c = ';' ∨ c = '#' then Except.ok st
    else if 0 < check line "nameserver" then
      Except.ok (st.nameserver (line.drop (check line "nameserver")))
    else if 0 < check line "options" then
      Except.ok (st.options (line.drop (check line "options")))
    else if 0 < check line "domain" then
      Except.error ("not implemented: domain " ++ String.mk (line.drop (check line "domain")))
    else if 0 < check line "search" then
      Except.ok (st.search (line.drop (check line "search")))
    else Except.error ("unrecognized: " ++ String.mk line)

/-- The line loop of the `ResolvConf` constructor: each line is trimmed of
trailing whitespace and parsed; in lenient mode a failing line is skipped
with the state kept, in strict mode the error is rethrown prefixed with the
file name.  The local-domain fallback for an empty search list sits behind
localdomain.h, which is not in the sources, and is outside this model. -/
def parseLines (filename : String) (strict : Bool) :
    ResolvConfState → List (List Char) → Except String ResolvConfState
  | st, [] => Except.ok st
  | st, l :: ls =>
    match parseTrimmedLine st (trimTrailing l) with
    | Except.ok st2 => parseLines filename strict st2 ls
    | Except.error e =>
      if strict then Except.error (filename ++ ": " ++ e)
      else parseLines filename strict st ls

/-- The `ResolvConf` constructor from resolvconf.cpp, over the list of lines
of the file. -/
def resolvConfParse (filename : String) (strict : Bool) (lines : List (List Char)) :
    Except String ResolvConfState :=
  parseLines filename strict initialResolvConf lines

/-- The upper caps the option parser enforces with `std::min`. -/
def confCapped (st : ResolvConfState) : Prop :=
  st.timeout ≤ 30 ∧ st.attempts ≤ 5 ∧ st.ndots ≤ 15

/-- One option token keeps the upper caps. -/
theorem option_confCapped (st : ResolvConfState) (rest : List Char) (size : Nat)
    (h : confCapped st) : confCapped (st.option rest size) := by
  unfold ResolvConfState.option
  split
  · exact h
  split
  · exact h
  split
  · exact ⟨min_le_left _ _, h.2.1, h.2.2⟩
  split
  · exact ⟨h.1, min_le_left _ _, h.2.2⟩
  split
  · exact ⟨h.1, h.2.1, min_le_left _ _⟩
  · exact h

/-- The options loop keeps the upper caps. -/
theorem optionsLoopF_confCapped :
    ∀ (fuel : Nat) (st : ResolvConfState) (rest : List Char),
      confCapped st → confCapped (optionsLoopF fuel st rest) := by
  intro fuel
  induction fuel with
  | zero => intro st rest h; exact h
  | succ n ih =>
    intro st rest h
    simp only [optionsLoopF]
    split
    · exact option_confCapped _ _ _ h
    · exact ih _ _ (option_confCapped _ _ _ h)

/-- One parsed line keeps the upper caps. -/
theorem parseTrimmedLine_confCapped (st st2 : ResolvConfState) (line : List Char)
    (h : confCapped st) (hp : parseTrimmedLine st line = Except.ok st2) :
    confCapped st2 := by
  cases line with
  | nil =>
    simp only [parseTrimmedLine] at hp
    cases hp
    exact h
  | cons c rest =>
    simp only [parseTrimmedLine] at hp
    split at hp
    next => cases hp; exact h
    next =>
      split at hp
      next => cases hp; exact h
      next =>
        split at hp
        next => cases hp; exact optionsLoopF_confCapped _ _ _ h
        next =>
          split at hp
          next => simp at hp
          next =>
            split at hp
            next => cases hp; exact h
            next => simp at hp

/-- The line loop keeps the upper caps. -/
theorem parseLines_confCapped :
    ∀ (ls : List (List Char)) (filename : String) (strict : Bool)
      (st st2 : ResolvConfState), confCapped st →
      parseLines filename strict st ls = Except.ok st2 → confCapped st2 := by
  intro ls
  induction ls with
  | nil =>
    intro fn strict st st2 h hp
    simp only [parseLines] at hp
    cases hp
    exact h
  | cons l ls ih =>
    intro fn strict st st2 h hp
    cases hq : parseTrimmedLine st (trimTrailing l) with
    | ok st3 =>
      simp only [parseLines, hq] at hp
      exact ih fn strict st3 st2 (parseTrimmedLine_confCapped st st3 _ h hq) hp
    | error e =>
      simp only [parseLines, hq] at hp
      split at hp
      · cases hp
      · exact ih fn strict st st2 h hp

/-- C6 counterexample: the token `timeout:0` is stored as 0, which lies
outside the documented range 1..30 — the parser does not clamp from
below. -/
theorem resolv_timeout_below_range :
    ((resolvConfParse "resolv.conf" false ["options timeout:0".data]).map
      fun st => st.timeout) = Except.ok 0 ∧ ¬ ((1 : Int) ≤ 0) := by
  exact ⟨rfl, by decide⟩

/-- C6 amended: every successfully parsed resolv.conf has its values capped
from above — timeout at 30, attempts at 5, ndots at 15 — starting from the
in-range defaults; there is no clamping from below, so a token such as
`timeout:0` stores a value under the documented minimum. -/
theorem resolv_option_values_capped (filename : String) (strict : Bool)
    (lines : List (List Char)) (st : ResolvConfState)
    (h : resolvConfParse filename strict lines = Except.ok st) :
    st.timeout ≤ 30 ∧ st.attempts ≤ 5 ∧ st.ndots ≤ 15 :=
  parseLines_confCapped lines filename strict initialResolvConf st
    (by constructor <;> simp [initialResolvConf]) h

/-- C6 witness: oversized tokens for all three options are capped to 30, 5
and 15. -/
theorem resolv_option_values_capped_witness :
    resolvConfParse "r" false ["options timeout:99 attempts:9 ndots:99".data] =
      Except.ok (ResolvConfState.mk [] [] false 30 5 15) ∧
    ((30 : Int) ≤ 30 ∧ (5 : Int) ≤ 5 ∧ (15 : Int) ≤ 15) :=
  ⟨by rfl,
    resolv_option_values_capped "r" false
      ["options timeout:99 attempts:9 ndots:99".data]
      (ResolvConfState.mk [] [] false 30 5 15) (by rfl)⟩

/-- C7: the divergence on the `rotate` option, evaluated at the failing
input.  The source compares `strncmp(option, "rotate", 7)`: seven bytes span
the six letters and the NUL terminator of the literal, so the comparison
succeeds only when the token sits at the very end of the line; in
`options rotate ndots:2` the token is followed by a space and rotate stays
false, while the reordered `options ndots:2 rotate` sets it. -/
theorem rotate_only_recognized_at_line_end :
    ((resolvConfParse "r" false ["options rotate ndots:2".data]).map
      fun st => (st.rotate, st.ndots)) = Except.ok (false, 2) ∧
    ((resolvConfParse "r" false ["options ndots:2 rotate".data]).map
      fun st => (st.rotate, st.ndots)) = Except.ok (true, 2) := by
  exact ⟨rfl, rfl⟩

/-- C8 counterexample: a `domain` line — recognized keyword, whitespace and a
value — raises `not implemented` in strict mode instead of being accepted. -/
theorem domain_line_raises_strict :
    resolvConfParse "/etc/resolv.conf" true ["domain example.com".data] =
      Except.error "/etc/resolv.conf: not implemented: domain example.com" := by
  rfl

/-- A positive `check` pins down the first character of the line up to case
folding. -/
theorem check_pos_head (line : List Char) (kw : String) (k : Char) (ks : List Char)
    (hkw : kw.data = k :: ks) (h : 0 < check line kw) :
    ∃ c cs, line = c :: cs ∧ asciiLower c = asciiLower k := by
  unfold check at h
  split at h
  next hq =>
    have hlen : kw.length = ks.length + 1 := by
      rw [show kw.length = kw.data.length from rfl, hkw]
      simp
    cases line with
    | nil =>
      rw [hkw, hlen] at hq
      simp [cstrncaseeq] at hq
    | cons c cs =>
      rw [hkw, hlen] at hq
      simp only [cstrncaseeq, Bool.and_eq_true] at hq
      exact ⟨c, cs, rfl, by simpa [ccaseEq] using hq.1⟩
  next hq => exact absurd h (by omega)

/-- C8 amended: the parser skips every line opening with `;` or `#`; a line
whose first token case-insensitively matches `nameserver`, `options` or
`search` (followed by whitespace and a value) is handled without raising,
even in strict mode; a recognized `domain` line always raises
`not implemented`; an unrecognized line raises, and in strict mode the error
carries the file name and the text of the offending line. -/
theorem resolv_parse_dispatch (filename : String) (st : ResolvConfState)
    (line l : List Char) (ls : List (List Char)) (e : String) :
    (∀ c rest, line = c :: rest → (c = ';' ∨ c = '#') →
      parseTrimmedLine st line = Except.ok st) ∧
    (0 < check line "nameserver" ∨ 0 < check line "options" ∨ 0 < check line "search" →
      (parseTrimmedLine st line).isOk = true) ∧
    (0 < check line "domain" →
      parseTrimmedLine st line =
        Except.error ("not implemented: domain " ++
          String.mk (line.drop (check line "domain")))) ∧
    (line ≠ [] → (∀ c rest, line = c :: rest → ¬(c = ';' ∨ c = '#')) →
      check line "nameserver" = 0 → check line "options" = 0 →
      check line "domain" = 0 → check line "search" = 0 →
      parseTrimmedLine st line = Except.error ("unrecognized: " ++ String.mk line)) ∧
    (parseTrimmedLine st (trimTrailing l) = Except.error e →
      parseLines filename true st (l :: ls) = Except.error (filename ++ ": " ++ e)) := by
  refine ⟨?_, ?_, ?_, ?_, ?_⟩
  · rintro c rest rfl hc
    simp only [parseTrimmedLine]
    rw [if_pos hc]
  · intro hsome
    cases hline : line with
    | nil =>
      subst hline
      rcases hsome with h | h | h <;> exact absurd h (by decide)
    | cons c rest =>
      subst hline
      have hhead : ∀ kw : String, ∀ k : Char, ∀ ks : List Char, kw.data = k :: ks →
          0 < check (c :: rest) kw → asciiLower c = asciiLower k := by
        intro kw k ks hkw hk
        obtain ⟨c2, cs2, heq, hlow⟩ := check_pos_head (c :: rest) kw k ks hkw hk
        cases heq
        exact hlow
      have hnotcom : ∀ k : Char, asciiLower c = asciiLower k →
          (k = 'n' ∨ k = 'o' ∨ k = 's') → ¬(c = ';' ∨ c = '#') := by
        rintro k hlow hk (rfl | rfl) <;>
          rcases hk with rfl | rfl | rfl <;> exact absurd hlow (by decide)
      simp only [parseTrimmedLine]
      rcases hsome with h | h | h
      · have hlow := hhead "nameserver" 'n' "ameserver".data rfl h
        rw [if_neg (hnotcom 'n' hlow (Or.inl rfl)), if_pos h]
        rfl
      · have hlow := hhead "options" 'o' "ptions".data rfl h
        rw [if_neg (hnotcom 'o' hlow (Or.inr (Or.inl rfl)))]
        split
        next => rfl
        next => rfl
      · have hlow := hhead "search" 's' "earch".data rfl h
        rw [if_neg (hnotcom 's' hlow (Or.inr (Or.inr rfl)))]
        split
        next => rfl
        next =>
          split
          next => rfl
          next =>
            split
            next hd =>
              have hlowd := hhead "domain" 'd' "omain".data rfl hd
              rw [hlow] at hlowd
              exact absurd hlowd (by decide)
            next => rfl
  · intro hd
    cases hline : line with
    | nil =>
      subst hline
      exact absurd hd (by decide)
    | cons c rest =>
      subst hline
      have hlowd : asciiLower c = asciiLower 'd' := by
        obtain ⟨c2, cs2, heq, hlow⟩ := check_pos_head (c :: rest) "domain" 'd' "omain".data rfl hd
        cases heq
        exact hlow
      have hne : ∀ kw : String, ∀ k : Char, ∀ ks : List Char, kw.data = k :: ks →
          asciiLower k ≠ asciiLower 'd' → ¬(0 < check (c :: rest) kw) := by
        intro kw k ks hkw hkne hk
        obtain ⟨c2, cs2, heq, hlow⟩ := check_pos_head (c :: rest) kw k ks hkw hk
        cases heq
        exact hkne (hlow ▸ hlowd)
      have hcom : ¬(c = ';' ∨ c = '#') := by
        rintro (rfl | rfl) <;> exact absurd hlowd (by decide)
      simp only [parseTrimmedLine]
      rw [if_neg hcom,
        if_neg (hne "nameserver" 'n' "ameserver".data rfl (by decide)),
        if_neg (hne "options" 'o' "ptions".data rfl (by decide)),
        if_pos hd]
  · intro hnil hcom hn ho hd hs
    cases hline : line with
    | nil => exact absurd hline hnil
    | cons c rest =>
      subst hline
      simp only [parseTrimmedLine]
      rw [if_neg (hcom c rest rfl), if_neg (by omega : ¬0 < check (c :: rest) "nameserver"),
        if_neg (by omega : ¬0 < check (c :: rest) "options"),
        if_neg (by omega : ¬0 < check (c :: rest) "domain"),
        if_neg (by omega : ¬0 < check (c :: rest) "search")]
  · intro he
    simp only [parseLines, he]
    rfl

/-- C8 witness: the dispatch applied to the line `nameserver 1.2.3.4` (kept,
no error), to a comment line, and to the strict-mode file prefix on a
`domain` line. -/
theorem resolv_parse_dispatch_witness :
    (0 < check "nameserver 1.2.3.4".data "nameserver" ∨
      0 < check "nameserver 1.2.3.4".data "options" ∨
      0 < check "nameserver 1.2.3.4".data "search") ∧
    (parseTrimmedLine initialResolvConf "nameserver 1.2.3.4".data).isOk = true :=
  ⟨Or.inl (by decide),
    (resolv_parse_dispatch "r" initialResolvConf "nameserver 1.2.3.4".data [] [] "").2.1
      (Or.inl (by decide))⟩

end DNS
